import Mathlib

/-!
Shallow embedding of the EEPROM circular-record store of the ModemMonitor
repository (EEPROMRecordClass.h / EEPROMRecordClass.cpp).

The EEPROM is modelled as a total byte map `Nat → Nat` together with its
length `EEPROM.length()`.  The class state (the member `_modemRecordIndex`
cursor and the member `EEPROMBlock`) is carried in a `Store` structure.
Every method mutating the EEPROM is modelled by the ordered list of byte
writes it issues (`EEPROM.update` calls), applied left to right; this keeps
the write order available for the flag-last ordering property.

`_modemRecordIndex` is declared `unsigned int` in the source, so it is a
`Nat` here; the source's dead test `_modemRecordIndex < 0` is kept verbatim
(it is decidably false on `Nat`, exactly as on an unsigned integer).

The C++ `while` loops are bounded: each loop either carries an explicit
probe counter compared against `numRecords`, or strictly increases an index
that is range-checked inside the body.  They are translated with a fuel
argument equal to the number of loop entries the counter comparison admits
(`numRecords + 1` for a counter starting at 0 compared with
`count <= numRecords`, and so on), so fuel exhaustion coincides exactly
with the C++ counter exits.
-/

namespace ModemMonitor

/-- Flag value for a completed record (EEPROMRecordClass.h line 27). -/
def MODEM_RECORD_COMPLETE : Nat := 0x01

/-- Flag value for the record being built (EEPROMRecordClass.h line 28). -/
def MODEM_RECORD_IN_PROGRESS : Nat := 0x02

/-- Flag value for an unused slot (EEPROMRecordClass.h line 29). -/
def MODEM_RECORD_UNUSED : Nat := 0xFF

/-- The EEPROM contents: a byte value for every address. -/
abbrev Bytes := Nat → Nat

/-- The 8-byte on-EEPROM record layout (EEPROMRecordClass.h lines 36-54). -/
structure EEPROMRecord_t where
  secsSince1900_4 : Nat
  secsSince1900_3 : Nat
  secsSince1900_2 : Nat
  secsSince1900_1 : Nat
  downMins2 : Nat
  downMins1 : Nat
  spare : Nat
  flags : Nat
deriving DecidableEq

/-- The in-memory record value (ModemMonitor.h lines 96-100). -/
structure modemRecord_t where
  secsSince1900 : Nat
  downMins : Nat
  waitSecs : Nat
deriving DecidableEq

/-- The state an EEPROMRecordClass instance acts on: the EEPROM byte array
with its length, the `_modemRecordIndex` cursor, and the `EEPROMBlock`
member. -/
structure Store where
  mem : Bytes
  len : Nat
  modemRecordIndex : Nat
  EEPROMBlock : EEPROMRecord_t

/-- Apply a list of `EEPROM.update(addr, value)` writes in order. -/
def writeList (mem : Bytes) : List (Nat × Nat) → Bytes
  | [] => mem
  | (a, v) :: rest => writeList (fun x => if x = a then v else mem x) rest

/-! ### getRecordInProgress (EEPROMRecordClass.cpp lines 125-151) -/

/-- The scan loop of `getRecordInProgress`: walk forward from byte index `i`
in steps of `sizeof(EEPROMRecord_t) = 8`, wrapping with `i -= len`, until the
flags byte at `i+7` reads `MODEM_RECORD_IN_PROGRESS` or the probe counter
exceeds `numRecords`.  The fuel argument is `numRecords + 1 - count`; the
third argument tracks `_modemRecordIndex`, assigned at the top of each loop
body.  Returns the function's return value paired with the final
`_modemRecordIndex`. -/
def gripLoop (mem : Bytes) (len : Nat) : Nat → Nat → Nat → Int × Nat
  | 0, _i, idx => (-1, idx)
  | fuel + 1, i, _idx =>
    if mem (i + 7) = MODEM_RECORD_IN_PROGRESS then ((i : Int), i)
    else
      let i1 := i + 8
      let i2 := if len ≤ i1 then i1 - len else i1
      gripLoop mem len fuel i2 i

/-- `EEPROMRecordClass::getRecordInProgress` (lines 125-151): scan from the
start of the EEPROM for the slot flagged IN_PROGRESS; return its byte index
and set the cursor there, or return -1. -/
def getRecordInProgress (s : Store) : Int × Store :=
  let numRecords := s.len / 8
  let r := gripLoop s.mem s.len (numRecords + 1) 0 s.modemRecordIndex
  (r.1, { s with modemRecordIndex := r.2 })

/-! ### getIndexOfNextCompletedRecord / getIndexOfPrevCompletedRecord
(lines 200-216 and 223-239) -/

/-- Core of `getIndexOfNextCompletedRecord` the raw state: step one slot
forward (`i = 0` on wrap, line 206), succeed only if the flags byte there is
COMPLETE; on failure `_modemRecordIndex` is left unchanged. -/
def nextIndexStep (mem : Bytes) (len idx : Nat) : Int × Nat :=
  let i1 := idx + 8
  let i := if len ≤ i1 then 0 else i1
  if mem (i + 7) = MODEM_RECORD_COMPLETE then ((i : Int), i) else (-1, idx)

/-- `EEPROMRecordClass::getIndexOfNextCompletedRecord` (lines 200-216). -/
def getIndexOfNextCompletedRecord (s : Store) : Int × Store :=
  let r := nextIndexStep s.mem s.len s.modemRecordIndex
  (r.1, { s with modemRecordIndex := r.2 })

/-- `EEPROMRecordClass::getIndexOfPrevCompletedRecord` (lines 223-239):
step one slot backward with `i += EEPROM.length()` on underflow; succeed
only if the flags byte there is COMPLETE. -/
def getIndexOfPrevCompletedRecord (s : Store) : Int × Store :=
  let i0 : Int := (s.modemRecordIndex : Int) - 8
  let i : Int := if i0 < 0 then i0 + (s.len : Int) else i0
  if s.mem (i.toNat + 7) = MODEM_RECORD_COMPLETE then
    (i, { s with modemRecordIndex := i.toNat })
  else (-1, s)

/-- `EEPROMRecordClass::getNextCompletedRecord` (lines 102-118). -/
def getNextCompletedRecord (s : Store) : Int × Store :=
  let r := getIndexOfNextCompletedRecord s
  if r.1 < 0 then (-1, r.2)
  else
    let i := r.1.toNat
    if r.2.mem (i + 7) = MODEM_RECORD_COMPLETE then
      ((i : Int), { r.2 with modemRecordIndex := i })
    else (-1, r.2)

/-! ### getNewestCompletedRecord (lines 158-193) -/

/-- Second loop of `getNewestCompletedRecord` (lines 181-189): keep calling
`getIndexOfNextCompletedRecord` while `flags == MODEM_RECORD_COMPLETE`;
note the source reads the follow-up flags from offset `i+1` (line 187), not
`i+7`.  Fuel is `numRecords + 1 - count`. -/
def gnwLoop2 (mem : Bytes) (len : Nat) : Nat → Nat → Nat → Nat → Int × Nat
  | 0, _i, _flags, idx => ((idx : Int), idx)
  | fuel + 1, i, flags, idx =>
    if flags = MODEM_RECORD_COMPLETE then
      let r := nextIndexStep mem len i
      if r.1 < 0 then ((i : Int), i)
      else gnwLoop2 mem len fuel r.2 (mem (r.2 + 1)) r.2
    else ((idx : Int), idx)

/-- First loop of `getNewestCompletedRecord` (lines 164-174) together with
the dispatch after it (lines 176-190): search forward for a first COMPLETE
slot, returning the current cursor as soon as
`getIndexOfNextCompletedRecord` fails; on success hand over to the second
loop with the counter reset.  Fuel is `numRecords + 1 - count`. -/
def gnwLoop1 (mem : Bytes) (len numRecords : Nat) : Nat → Nat → Nat → Nat → Int × Nat
  | 0, _i, _flags, idx => (-1, idx)
  | fuel + 1, i, flags, idx =>
    if flags ≠ MODEM_RECORD_COMPLETE then
      let r := nextIndexStep mem len i
      if r.1 < 0 then ((i : Int), i)
      else gnwLoop1 mem len numRecords fuel r.2 (mem (r.2 + 7)) r.2
    else gnwLoop2 mem len (numRecords + 1) i flags idx

/-- `EEPROMRecordClass::getNewestCompletedRecord` (lines 158-193). -/
def getNewestCompletedRecord (s : Store) : Int × Store :=
  let numRecords := s.len / 8
  let r := gnwLoop1 s.mem s.len numRecords (numRecords + 1) 0 (s.mem 7) s.modemRecordIndex
  (r.1, { s with modemRecordIndex := r.2 })

/-! ### getOldestCompletedRecord (lines 51-94)

The source declares `int i, emptyEEPROM = true, numRecords, count;` and then
reads `count` in the first loop's guard (line 63) and in the post-loop check
(line 74) WITHOUT ever initialising it: the first loop never assigns
`count`.  The uninitialised value is modelled by the explicit parameter
`count0` (an `int`, hence `Int`).  `emptyEEPROM` is never used. -/

/-- Second loop of `getOldestCompletedRecord` (lines 80-93): from the slot
flagged IN_PROGRESS walk forward (wrapping with `i = 0`, line 84) until a
COMPLETE flag is found; succeed while `count <= numRecords`.  Fuel is
`numRecords + 1 - count`, and `count` starts at 1 (line 80).  The fourth
argument carries `_modemRecordIndex`, unchanged by this loop until the
success assignment (line 89). -/
def goldLoop2 (mem : Bytes) (len : Nat) : Nat → Nat → Nat → Nat → Int × Nat
  | 0, _i, _flags, idx => (-1, idx)
  | fuel + 1, i, flags, idx =>
    if flags = MODEM_RECORD_COMPLETE then ((i : Int), i)
    else
      let i1 := i + 8
      let i2 := if len ≤ i1 then 0 else i1
      goldLoop2 mem len fuel i2 (mem (i2 + 7)) idx

/-- First loop of `getOldestCompletedRecord` (lines 59-76) and the handover
to the second loop: look for the IN_PROGRESS slot scanning forward without
wraparound, returning -1 from inside the body once `i+7` runs past the end
(lines 67-68).  `count0` is the uninitialised `count`: the guard compares it
against `numRecords` (line 63) but no path of this loop writes it, and the
post-loop check (line 74) reads it again.  Fuel only guarantees totality;
the body's range check exits first whenever `len` is a multiple of 8. -/
def goldLoop1 (mem : Bytes) (len : Nat) (count0 : Int) (numRecords : Nat) :
    Nat → Nat → Nat → Nat → Int × Nat
  | 0, _i, _flags, idx => (-1, idx)
  | fuel + 1, i, flags, idx =>
    if flags ≠ MODEM_RECORD_IN_PROGRESS ∧ count0 ≤ (numRecords : Int) then
      let i1 := i + 8
      if len ≤ i1 + 7 then (-1, i)
      else goldLoop1 mem len count0 numRecords fuel i1 (mem (i1 + 7)) i
    else
      if (numRecords : Int) < count0 then (-1, idx)
      else goldLoop2 mem len numRecords i flags idx

/-- `EEPROMRecordClass::getOldestCompletedRecord` (lines 51-94), with the
uninitialised local `count` supplied as `count0`. -/
def getOldestCompletedRecord (count0 : Int) (s : Store) : Int × Store :=
  let numRecords := s.len / 8
  let r := goldLoop1 s.mem s.len count0 numRecords (numRecords + 1) 0 (s.mem 7)
    s.modemRecordIndex
  (r.1, { s with modemRecordIndex := r.2 })

/-! ### completeLogEntry (lines 249-282) -/

/-- The two byte indices `completeLogEntry` writes to: the slot left in
`_modemRecordIndex` by `getRecordInProgress` (the source's
`_modemRecordIndex < 0` test never fires on the unsigned member, kept
verbatim), and the next slot after the wrap `_modemRecordIndex -=
EEPROM.length()` (lines 266-268). -/
def clTargets (s : Store) : Nat × Nat :=
  let s1 := (getRecordInProgress s).2
  let j := if s1.modemRecordIndex < 0 then 0 else s1.modemRecordIndex
  let t := j + 8
  let j2 := if s.len ≤ t then t - s.len else t
  (j, j2)

/-- The ordered `EEPROM.update` sequence of `completeLogEntry`
(lines 255-279): seal the in-progress slot (payload then COMPLETE flag),
then initialise the following slot (payload with zeroed downtime, then
IN_PROGRESS flag). -/
def completeLogEntryTrace (s : Store) : List (Nat × Nat) :=
  let j := (clTargets s).1
  let j2 := (clTargets s).2
  let b := s.EEPROMBlock
  [(j, b.secsSince1900_4), (j + 1, b.secsSince1900_3), (j + 2, b.secsSince1900_2),
   (j + 3, b.secsSince1900_1), (j + 4, b.downMins2), (j + 5, b.downMins1),
   (j + 7, MODEM_RECORD_COMPLETE),
   (j2, b.secsSince1900_4), (j2 + 1, b.secsSince1900_3), (j2 + 2, b.secsSince1900_2),
   (j2 + 3, b.secsSince1900_1), (j2 + 4, 0), (j2 + 5, 0),
   (j2 + 7, MODEM_RECORD_IN_PROGRESS)]

/-- `EEPROMRecordClass::completeLogEntry` (lines 249-282). -/
def completeLogEntry (s : Store) : Store :=
  { s with mem := writeList s.mem (completeLogEntryTrace s),
           modemRecordIndex := (clTargets s).2 }

/-! ### setEEPROMUptimeStats (lines 316-347) -/

/-- The scan loop of `setEEPROMUptimeStats` (lines 323-329): walk forward
(without wraparound) while the flags byte is not IN_PROGRESS and
`_modemRecordIndex + 7` is still inside the EEPROM; the flags byte is only
re-read while in range, so it goes stale at the boundary.  Returns the
final `(_modemRecordIndex, flags)`. -/
def seusLoop (mem : Bytes) (len : Nat) : Nat → Nat → Nat → Nat × Nat
  | 0, mRI, flags => (mRI, flags)
  | fuel + 1, mRI, flags =>
    if flags ≠ MODEM_RECORD_IN_PROGRESS ∧ mRI + 7 < len then
      let m2 := mRI + 8
      let f2 := if m2 + 7 < len then mem (m2 + 7) else flags
      seusLoop mem len fuel m2 f2
    else (mRI, flags)

/-- The slot index `setEEPROMUptimeStats` writes to: the IN_PROGRESS slot if
the scan found one, otherwise 0 (lines 331-334, destroying a log entry). -/
def setEEPROMUptimeStatsTarget (s : Store) : Nat :=
  let r := seusLoop s.mem s.len (s.len / 8 + 1) 0 (s.mem 7)
  if r.2 ≠ MODEM_RECORD_IN_PROGRESS then 0 else r.1

/-- The ordered `EEPROM.update` sequence of `setEEPROMUptimeStats`
(lines 336-344): payload bytes first, IN_PROGRESS flag last. -/
def setEEPROMUptimeStatsTrace (s : Store) : List (Nat × Nat) :=
  let t := setEEPROMUptimeStatsTarget s
  let b := s.EEPROMBlock
  [(t, b.secsSince1900_4), (t + 1, b.secsSince1900_3), (t + 2, b.secsSince1900_2),
   (t + 3, b.secsSince1900_1), (t + 4, b.downMins2), (t + 5, b.downMins1),
   (t + 7, MODEM_RECORD_IN_PROGRESS)]

/-- `EEPROMRecordClass::setEEPROMUptimeStats` (lines 316-347). -/
def setEEPROMUptimeStats (s : Store) : Store :=
  { s with mem := writeList s.mem (setEEPROMUptimeStatsTrace s),
           modemRecordIndex := setEEPROMUptimeStatsTarget s }

/-! ### clearLog (lines 290-306) -/

/-- The ordered `EEPROM.update` sequence of `clearLog`: every byte of the
EEPROM is overwritten with `MODEM_RECORD_UNUSED` (lines 292-293), then one
fresh record (payload, then IN_PROGRESS flag) is written at the unchanged
`_modemRecordIndex` (lines 295-303). -/
def clearLogTrace (s : Store) : List (Nat × Nat) :=
  let b := s.EEPROMBlock
  (List.range s.len).map (fun a => (a, MODEM_RECORD_UNUSED)) ++
  [(s.modemRecordIndex, b.secsSince1900_4), (s.modemRecordIndex + 1, b.secsSince1900_3),
   (s.modemRecordIndex + 2, b.secsSince1900_2), (s.modemRecordIndex + 3, b.secsSince1900_1),
   (s.modemRecordIndex + 4, b.downMins2), (s.modemRecordIndex + 5, b.downMins1),
   (s.modemRecordIndex + 7, MODEM_RECORD_IN_PROGRESS)]

/-- `EEPROMRecordClass::clearLog` (lines 290-306); `_modemRecordIndex` is
left unchanged. -/
def clearLog (s : Store) : Store :=
  { s with mem := writeList s.mem (clearLogTrace s) }

/-! ### codec (lines 393-426) -/

/-- `EEPROMRecordClass::convertToEEPROMBlock` (lines 393-406): big-endian
encode the passed record into the `EEPROMBlock` member, flags = COMPLETE. -/
def convertToEEPROMBlock (s : Store) (src : modemRecord_t) : Store :=
  { s with EEPROMBlock :=
    { s.EEPROMBlock with
      secsSince1900_4 := (src.secsSince1900 >>> 24) &&& 0xff,
      secsSince1900_3 := (src.secsSince1900 >>> 16) &&& 0xff,
      secsSince1900_2 := (src.secsSince1900 >>> 8) &&& 0xff,
      secsSince1900_1 := src.secsSince1900 &&& 0xff,
      downMins2 := (src.downMins >>> 8) &&& 0xff,
      downMins1 := src.downMins &&& 0xff,
      flags := MODEM_RECORD_COMPLETE } }

/-- `EEPROMRecordClass::convertFromEEPROMBlock` (lines 413-426): decode the
`EEPROMBlock` member into the passed record. -/
def convertFromEEPROMBlock (s : Store) (dst : modemRecord_t) : modemRecord_t :=
  { dst with
    secsSince1900 :=
      (s.EEPROMBlock.secsSince1900_4 <<< 24) + (s.EEPROMBlock.secsSince1900_3 <<< 16) +
      (s.EEPROMBlock.secsSince1900_2 <<< 8) + s.EEPROMBlock.secsSince1900_1,
    downMins := (s.EEPROMBlock.downMins2 <<< 8) + s.EEPROMBlock.downMins1 }

/-! ### finalize-and-start sequences -/

/-- The states after each call of a sequence of `completeLogEntry` calls,
each preceded by loading a record through `convertToEEPROMBlock`. -/
def runLog (s : Store) : List modemRecord_t → List Store
  | [] => []
  | r :: rs =>
    let s1 := completeLogEntry (convertToEEPROMBlock s r)
    s1 :: runLog s1 rs

/-! ### Derived observations used by the claims -/

/-- The flags byte of slot `j` (byte offset 7 inside the 8-byte slot). -/
def slotFlag (mem : Bytes) (j : Nat) : Nat := mem (8 * j + 7)

/-- At most one of the `N` slots is flagged IN_PROGRESS. -/
def atMostOneInProgress (mem : Bytes) (N : Nat) : Prop :=
  ∀ j, j < N → ∀ k, k < N → slotFlag mem j = MODEM_RECORD_IN_PROGRESS →
    slotFlag mem k = MODEM_RECORD_IN_PROGRESS → j = k

/-- Flag-last write ordering over a write trace: any write of a slot's
flags byte (slot offset 7) carrying the value COMPLETE or IN_PROGRESS comes
after every write of that same slot's payload bytes (slot offsets 0-5). -/
def flagLast (t : List (Nat × Nat)) : Prop :=
  ∀ qi pi (hq : qi < t.length) (hp : pi < t.length),
    (t.get ⟨qi, hq⟩).1 % 8 = 7 →
    ((t.get ⟨qi, hq⟩).2 = MODEM_RECORD_COMPLETE ∨
      (t.get ⟨qi, hq⟩).2 = MODEM_RECORD_IN_PROGRESS) →
    (t.get ⟨pi, hp⟩).1 % 8 ≤ 5 →
    (t.get ⟨pi, hp⟩).1 / 8 = (t.get ⟨qi, hq⟩).1 / 8 →
    pi < qi

/-- The cursor is slot-aligned and inside the EEPROM. -/
def cursorOK (s : Store) : Prop :=
  s.modemRecordIndex % 8 = 0 ∧ s.modemRecordIndex < s.len

/-! ### Characterisation of the `getRecordInProgress` scan -/

/-- One wrap step of an aligned scan index. -/
lemma wrap8 (N m : Nat) (hm : m < N) :
    (if 8 * N ≤ 8 * m + 8 then 8 * m + 8 - 8 * N else 8 * m + 8) = 8 * ((m + 1) % N) := by
  by_cases h : m + 1 < N
  · rw [if_neg (by omega), Nat.mod_eq_of_lt h]
    ring
  · have he : m + 1 = N := by omega
    rw [if_pos (by omega), he, Nat.mod_self]
    omega

/-- If no slot is flagged IN_PROGRESS the scan loop fails with -1, leaving
the cursor at the last visited slot. -/
lemma gripLoop_none (mem : Bytes) (N : Nat) (hN : 0 < N)
    (hno : ∀ j, j < N → slotFlag mem j ≠ MODEM_RECORD_IN_PROGRESS) :
    ∀ fuel m idx, m < N →
      gripLoop mem (8 * N) fuel (8 * m) idx =
        (-1, if fuel = 0 then idx else 8 * ((m + (fuel - 1)) % N)) := by
  intro fuel
  induction fuel with
  | zero =>
    intro m idx hm
    simp [gripLoop]
  | succ f ih =>
    intro m idx hm
    have hflag : ¬ mem (8 * m + 7) = MODEM_RECORD_IN_PROGRESS := hno m hm
    simp only [gripLoop]
    rw [if_neg hflag, wrap8 N m hm, ih ((m + 1) % N) (8 * m) (Nat.mod_lt _ hN)]
    cases f with
    | zero => simp [Nat.mod_eq_of_lt hm]
    | succ g =>
      simp only [Nat.succ_ne_zero, if_false, Nat.succ_sub_one]
      rw [Nat.mod_add_mod]
      have : m + 1 + g = m + (g + 1) := by omega
      rw [this]

/-- If the first IN_PROGRESS slot, scanning from slot `m`, lies `d` steps
ahead (circularly) and there is fuel to reach it, the scan loop returns its
byte index and parks the cursor there. -/
lemma gripLoop_finds (mem : Bytes) (N : Nat) (hN : 0 < N) :
    ∀ d fuel m idx, m < N → d < fuel →
      slotFlag mem ((m + d) % N) = MODEM_RECORD_IN_PROGRESS →
      (∀ k, k < d → slotFlag mem ((m + k) % N) ≠ MODEM_RECORD_IN_PROGRESS) →
      gripLoop mem (8 * N) fuel (8 * m) idx =
        (((8 * ((m + d) % N) : Nat) : Int), 8 * ((m + d) % N)) := by
  intro d
  induction d with
  | zero =>
    intro fuel m idx hm hf hd _hmin
    obtain ⟨f, rfl⟩ : ∃ f, fuel = f + 1 := ⟨fuel - 1, by omega⟩
    simp only [Nat.add_zero, Nat.mod_eq_of_lt hm] at hd ⊢
    simp only [slotFlag] at hd
    simp only [gripLoop]
    rw [if_pos hd]
  | succ dd ih =>
    intro fuel m idx hm hf hd hmin
    obtain ⟨f, rfl⟩ : ∃ f, fuel = f + 1 := ⟨fuel - 1, by omega⟩
    have h0 : ¬ mem (8 * m + 7) = MODEM_RECORD_IN_PROGRESS := by
      have := hmin 0 (by omega)
      rwa [Nat.add_zero, Nat.mod_eq_of_lt hm, slotFlag] at this
    have key : ∀ k, ((m + 1) % N + k) % N = (m + (k + 1)) % N := by
      intro k
      rw [Nat.mod_add_mod]
      have : m + 1 + k = m + (k + 1) := by omega
      rw [this]
    simp only [gripLoop]
    rw [if_neg h0, wrap8 N m hm,
      ih f ((m + 1) % N) (8 * m) (Nat.mod_lt _ hN) (by omega)
        (by rw [key]; exact hd)
        (fun k hk => by rw [key]; exact hmin (k + 1) (by omega)),
      key]

/-- The scan loop always leaves the cursor slot-aligned and in bounds. -/
lemma gripLoop_cursor (mem : Bytes) (N : Nat) (hN : 0 < N) :
    ∀ fuel m idx, 0 < fuel → m < N →
      (gripLoop mem (8 * N) fuel (8 * m) idx).2 % 8 = 0 ∧
      (gripLoop mem (8 * N) fuel (8 * m) idx).2 < 8 * N := by
  intro fuel
  induction fuel with
  | zero =>
    intro m idx hf hm
    omega
  | succ f ih =>
    intro m idx _hf hm
    simp only [gripLoop]
    by_cases hip : mem (8 * m + 7) = MODEM_RECORD_IN_PROGRESS
    · rw [if_pos hip]
      constructor
      · exact Nat.mul_mod_right 8 m
      · omega
    · rw [if_neg hip, wrap8 N m hm]
      cases f with
      | zero =>
        simp only [gripLoop]
        constructor
        · exact Nat.mul_mod_right 8 m
        · omega
      | succ g =>
        exact ih ((m + 1) % N) (8 * m) (by omega) (Nat.mod_lt _ hN)

/-- `getRecordInProgress` on a ring with no IN_PROGRESS slot: returns -1 and
leaves the cursor at slot 0. -/
lemma getRecordInProgress_none (s : Store) (N : Nat) (h : s.len = 8 * N) (hN : 0 < N)
    (hno : ∀ j, j < N → slotFlag s.mem j ≠ MODEM_RECORD_IN_PROGRESS) :
    getRecordInProgress s = (-1, { s with modemRecordIndex := 0 }) := by
  have hnum : s.len / 8 = N := by rw [h]; exact Nat.mul_div_cancel_left N (by norm_num)
  have h0 : (0 : Nat) = 8 * 0 := rfl
  rw [getRecordInProgress, hnum]
  rw [show (gripLoop s.mem s.len (N + 1) 0 s.modemRecordIndex) =
      gripLoop s.mem (8 * N) (N + 1) (8 * 0) s.modemRecordIndex by rw [h]]
  rw [gripLoop_none s.mem N hN hno (N + 1) 0 s.modemRecordIndex hN]
  simp [Nat.mod_self]

/-- `getRecordInProgress` on a ring whose first IN_PROGRESS slot (scanning
from slot 0) is `p`: returns byte index `8*p` and parks the cursor there. -/
lemma getRecordInProgress_finds (s : Store) (N : Nat) (h : s.len = 8 * N) (hN : 0 < N)
    (p : Nat) (hp : p < N)
    (hIP : slotFlag s.mem p = MODEM_RECORD_IN_PROGRESS)
    (hmin : ∀ k, k < p → slotFlag s.mem k ≠ MODEM_RECORD_IN_PROGRESS) :
    getRecordInProgress s = (((8 * p : Nat) : Int), { s with modemRecordIndex := 8 * p }) := by
  have hnum : s.len / 8 = N := by rw [h]; exact Nat.mul_div_cancel_left N (by norm_num)
  rw [getRecordInProgress, hnum]
  rw [show (gripLoop s.mem s.len (N + 1) 0 s.modemRecordIndex) =
      gripLoop s.mem (8 * N) (N + 1) (8 * 0) s.modemRecordIndex by rw [h]]
  rw [gripLoop_finds s.mem N hN p (N + 1) 0 s.modemRecordIndex hN (by omega)
    (by rwa [Nat.zero_add, Nat.mod_eq_of_lt hp])
    (fun k hk => by rw [Nat.zero_add, Nat.mod_eq_of_lt (by omega)]; exact hmin k hk)]
  rw [Nat.zero_add, Nat.mod_eq_of_lt hp]

/-! ### Characterisation of completeLogEntry -/

/-- The cursor `getRecordInProgress` leaves behind is slot-aligned and in
bounds, whatever the EEPROM holds. -/
lemma getRecordInProgress_cursor (s : Store) (N : Nat) (h : s.len = 8 * N) (hN : 0 < N) :
    (getRecordInProgress s).2.modemRecordIndex % 8 = 0 ∧
    (getRecordInProgress s).2.modemRecordIndex < s.len := by
  have hnum : s.len / 8 = N := by rw [h]; exact Nat.mul_div_cancel_left N (by norm_num)
  have hg := gripLoop_cursor s.mem N hN (N + 1) 0 s.modemRecordIndex (by omega) hN
  simp only [getRecordInProgress, hnum]
  rw [show (gripLoop s.mem s.len (N + 1) 0 s.modemRecordIndex) =
      gripLoop s.mem (8 * N) (N + 1) (8 * 0) s.modemRecordIndex by rw [h], h]
  exact hg

/-- The first write target of `completeLogEntry` is exactly the cursor left
by its `getRecordInProgress` call. -/
lemma clTargets_fst (s : Store) :
    (clTargets s).1 = (getRecordInProgress s).2.modemRecordIndex := by
  simp only [clTargets]
  rw [if_neg (Nat.not_lt_zero _)]

/-- Both write targets of `completeLogEntry` are slot-aligned and in
bounds. -/
lemma clTargets_cursor (s : Store) (N : Nat) (h : s.len = 8 * N) (hN : 0 < N) :
    (clTargets s).1 % 8 = 0 ∧ (clTargets s).1 < s.len ∧
    (clTargets s).2 % 8 = 0 ∧ (clTargets s).2 < s.len := by
  obtain ⟨h1, h2⟩ := getRecordInProgress_cursor s N h hN
  simp only [clTargets]
  rw [if_neg (Nat.not_lt_zero _)]
  refine ⟨h1, h2, ?_⟩
  split_ifs with hle
  · constructor <;> omega
  · constructor <;> omega

/-- Lookup of a flags byte after the 14 writes of `completeLogEntry`,
with both slot-aligned targets symbolic. -/
lemma writeList14_flag (mem : Bytes) (b : EEPROMRecord_t) (j j2 k : Nat)
    (hj : j % 8 = 0) (hj2 : j2 % 8 = 0) :
    writeList mem
      [(j, b.secsSince1900_4), (j + 1, b.secsSince1900_3), (j + 2, b.secsSince1900_2),
       (j + 3, b.secsSince1900_1), (j + 4, b.downMins2), (j + 5, b.downMins1),
       (j + 7, MODEM_RECORD_COMPLETE),
       (j2, b.secsSince1900_4), (j2 + 1, b.secsSince1900_3), (j2 + 2, b.secsSince1900_2),
       (j2 + 3, b.secsSince1900_1), (j2 + 4, 0), (j2 + 5, 0),
       (j2 + 7, MODEM_RECORD_IN_PROGRESS)] (8 * k + 7) =
      if 8 * k = j2 then MODEM_RECORD_IN_PROGRESS
      else if 8 * k = j then MODEM_RECORD_COMPLETE
      else mem (8 * k + 7) := by
  rw [writeList, writeList, writeList, writeList, writeList, writeList, writeList,
      writeList, writeList, writeList, writeList, writeList, writeList, writeList,
      writeList]
  by_cases h2 : 8 * k = j2
  · rw [if_pos (show 8 * k + 7 = j2 + 7 by omega), if_pos h2]
  · rw [if_neg (show ¬ 8 * k + 7 = j2 + 7 by omega),
        if_neg (show ¬ 8 * k + 7 = j2 + 5 by omega),
        if_neg (show ¬ 8 * k + 7 = j2 + 4 by omega),
        if_neg (show ¬ 8 * k + 7 = j2 + 3 by omega),
        if_neg (show ¬ 8 * k + 7 = j2 + 2 by omega),
        if_neg (show ¬ 8 * k + 7 = j2 + 1 by omega),
        if_neg (show ¬ 8 * k + 7 = j2 by omega),
        if_neg h2]
    by_cases h1 : 8 * k = j
    · rw [if_pos (show 8 * k + 7 = j + 7 by omega), if_pos h1]
    · rw [if_neg (show ¬ 8 * k + 7 = j + 7 by omega),
          if_neg (show ¬ 8 * k + 7 = j + 5 by omega),
          if_neg (show ¬ 8 * k + 7 = j + 4 by omega),
          if_neg (show ¬ 8 * k + 7 = j + 3 by omega),
          if_neg (show ¬ 8 * k + 7 = j + 2 by omega),
          if_neg (show ¬ 8 * k + 7 = j + 1 by omega),
          if_neg (show ¬ 8 * k + 7 = j by omega),
          if_neg h1]

/-- What `completeLogEntry` does to each slot's flags byte: the slot after
the sealed one becomes IN_PROGRESS, the sealed slot becomes COMPLETE, every
other slot keeps its flags byte. -/
lemma completeLogEntry_slotFlag (s : Store) (N : Nat) (h : s.len = 8 * N) (hN : 0 < N)
    (k : Nat) (hk : k < N) :
    slotFlag (completeLogEntry s).mem k =
      if 8 * k = (clTargets s).2 then MODEM_RECORD_IN_PROGRESS
      else if 8 * k = (clTargets s).1 then MODEM_RECORD_COMPLETE
      else slotFlag s.mem k := by
  obtain ⟨ha1, ha2, hb1, hb2⟩ := clTargets_cursor s N h hN
  exact writeList14_flag s.mem s.EEPROMBlock (clTargets s).1 (clTargets s).2 k ha1 hb1

/-- One `completeLogEntry` call on a state with at most one IN_PROGRESS slot
leaves exactly one slot IN_PROGRESS. -/
lemma completeLogEntry_exactlyOne (s : Store) (N : Nat) (h : s.len = 8 * N) (hN : 0 < N)
    (hatm : atMostOneInProgress s.mem N) :
    ∃ p, p < N ∧ slotFlag (completeLogEntry s).mem p = MODEM_RECORD_IN_PROGRESS ∧
      ∀ j, j < N → slotFlag (completeLogEntry s).mem j = MODEM_RECORD_IN_PROGRESS → j = p := by
  obtain ⟨ha1, ha2, hb1, hb2⟩ := clTargets_cursor s N h hN
  refine ⟨(clTargets s).2 / 8, by omega, ?_, ?_⟩
  · rw [completeLogEntry_slotFlag s N h hN _ (by omega), if_pos (by omega)]
  · intro k hk hflag
    rw [completeLogEntry_slotFlag s N h hN k hk] at hflag
    by_cases hkb : 8 * k = (clTargets s).2
    · omega
    · rw [if_neg hkb] at hflag
      by_cases hka : 8 * k = (clTargets s).1
      · rw [if_pos hka] at hflag
        exact absurd hflag (by decide)
      · rw [if_neg hka] at hflag
        have hfind := getRecordInProgress_finds s N h hN k hk hflag
          (fun q hq hIPq => absurd (hatm q (by omega) k hk hIPq hflag) (by omega))
        have : 8 * k = (clTargets s).1 := by
          rw [clTargets_fst, hfind]
        exact absurd this hka

instance atMostOneInProgressDecidable (mem : Bytes) (N : Nat) :
    Decidable (atMostOneInProgress mem N) :=
  inferInstanceAs (Decidable (∀ j, j < N → ∀ k, k < N →
    slotFlag mem j = MODEM_RECORD_IN_PROGRESS →
    slotFlag mem k = MODEM_RECORD_IN_PROGRESS → j = k))

/-- A 4-slot ring whose bytes are all `MODEM_RECORD_UNUSED` (a freshly
erased EEPROM), cursor at 0. -/
def ring4 : Store :=
  { mem := fun _ => MODEM_RECORD_UNUSED, len := 32, modemRecordIndex := 0,
    EEPROMBlock := ⟨0, 0, 0, 0, 0, 0, 0, 0⟩ }

/-- C1: for every EEPROM state in which at most one slot's flags byte equals
IN_PROGRESS (0x02), after any sequence of completeLogEntry (finalize-and-
start) calls — each preceded by loading a record via convertToEEPROMBlock —
at most one slot's flags byte equals IN_PROGRESS after each call. -/
theorem C1_at_most_one_in_progress (rs : List modemRecord_t) (s : Store) (N : Nat)
    (h : s.len = 8 * N) (hN : 0 < N) (hatm : atMostOneInProgress s.mem N) :
    ∀ t ∈ runLog s rs, atMostOneInProgress t.mem N := by
  induction rs generalizing s with
  | nil =>
    intro t ht
    simp [runLog] at ht
  | cons r rs ih =>
    intro t ht
    simp only [runLog, List.mem_cons] at ht
    obtain ⟨p, hp, hIP, huniq⟩ :=
      completeLogEntry_exactlyOne (convertToEEPROMBlock s r) N h hN hatm
    have hatm1 : atMostOneInProgress (completeLogEntry (convertToEEPROMBlock s r)).mem N := by
      intro a ha b hb hIPa hIPb
      rw [huniq a ha hIPa, huniq b hb hIPb]
    rcases ht with rfl | ht
    · exact hatm1
    · exact ih (completeLogEntry (convertToEEPROMBlock s r)) h hatm1 t ht

/-- Witness for C1: a concrete empty 4-slot ring and two finalize calls. -/
theorem C1_at_most_one_in_progress_witness :
    (0 < 4 ∧ atMostOneInProgress ring4.mem 4) ∧
    ∀ t ∈ runLog ring4 [⟨100, 0, 0⟩, ⟨200, 5, 0⟩], atMostOneInProgress t.mem 4 :=
  ⟨⟨by decide, by decide⟩,
    C1_at_most_one_in_progress [⟨100, 0, 0⟩, ⟨200, 5, 0⟩] ring4 4 rfl (by decide) (by decide)⟩

/-- C5: for every EEPROM state in which no slot's flags byte equals
IN_PROGRESS, completeLogEntry writes the sealed record (payload plus
COMPLETE flag) into slot 0: the finalize operation defaults to slot 0 when
its forward scan finds no IN_PROGRESS slot.  (With at least two slots, so
that the freshly started IN_PROGRESS record lands in slot 1 and leaves the
sealed slot 0 intact.) -/
theorem C5_finalize_defaults_to_slot_zero (s : Store) (N : Nat)
    (h : s.len = 8 * N) (hN : 2 ≤ N)
    (hno : ∀ j, j < N → slotFlag s.mem j ≠ MODEM_RECORD_IN_PROGRESS) :
    (completeLogEntry s).mem 0 = s.EEPROMBlock.secsSince1900_4 ∧
    (completeLogEntry s).mem 1 = s.EEPROMBlock.secsSince1900_3 ∧
    (completeLogEntry s).mem 2 = s.EEPROMBlock.secsSince1900_2 ∧
    (completeLogEntry s).mem 3 = s.EEPROMBlock.secsSince1900_1 ∧
    (completeLogEntry s).mem 4 = s.EEPROMBlock.downMins2 ∧
    (completeLogEntry s).mem 5 = s.EEPROMBlock.downMins1 ∧
    (completeLogEntry s).mem 7 = MODEM_RECORD_COMPLETE := by
  have hg := getRecordInProgress_none s N h (by omega) hno
  have hct : clTargets s = (0, 8) := by
    simp only [clTargets, hg]
    rw [if_neg (Nat.not_lt_zero _), if_neg (by omega)]
  refine ⟨?_, ?_, ?_, ?_, ?_, ?_, ?_⟩ <;>
    · simp only [completeLogEntry, completeLogEntryTrace, hct]
      norm_num [writeList, MODEM_RECORD_COMPLETE, MODEM_RECORD_IN_PROGRESS]

/-- Witness for C5: the concrete empty 4-slot ring. -/
theorem C5_finalize_defaults_to_slot_zero_witness :
    (2 ≤ 4 ∧ ∀ j, j < 4 → slotFlag ring4.mem j ≠ MODEM_RECORD_IN_PROGRESS) ∧
    ((completeLogEntry ring4).mem 0 = ring4.EEPROMBlock.secsSince1900_4 ∧
     (completeLogEntry ring4).mem 1 = ring4.EEPROMBlock.secsSince1900_3 ∧
     (completeLogEntry ring4).mem 2 = ring4.EEPROMBlock.secsSince1900_2 ∧
     (completeLogEntry ring4).mem 3 = ring4.EEPROMBlock.secsSince1900_1 ∧
     (completeLogEntry ring4).mem 4 = ring4.EEPROMBlock.downMins2 ∧
     (completeLogEntry ring4).mem 5 = ring4.EEPROMBlock.downMins1 ∧
     (completeLogEntry ring4).mem 7 = MODEM_RECORD_COMPLETE) :=
  ⟨⟨by decide, by decide⟩,
    C5_finalize_defaults_to_slot_zero ring4 4 rfl (by decide) (by decide)⟩

/-- C9: encoding a record with convertToEEPROMBlock and decoding it with
convertFromEEPROMBlock returns exactly the original timestamp and downtime
minutes, for every `ts < 2^32` and `mins < 2^16`. -/
theorem C9_codec_roundtrip (ts mins ws : Nat) (hts : ts < 2 ^ 32) (hm : mins < 2 ^ 16)
    (s : Store) (d : modemRecord_t) :
    (convertFromEEPROMBlock (convertToEEPROMBlock s ⟨ts, mins, ws⟩) d).secsSince1900 = ts ∧
    (convertFromEEPROMBlock (convertToEEPROMBlock s ⟨ts, mins, ws⟩) d).downMins = mins := by
  simp only [convertToEEPROMBlock, convertFromEEPROMBlock, Nat.shiftLeft_eq,
    Nat.shiftRight_eq_div_pow,
    show (0xff : Nat) = 2 ^ 8 - 1 by norm_num, Nat.and_pow_two_sub_one_eq_mod]
  constructor <;> omega

/-- Witness for C9: a concrete timestamp and downtime. -/
theorem C9_codec_roundtrip_witness :
    (3735928559 < 2 ^ 32 ∧ 48879 < 2 ^ 16) ∧
    ((convertFromEEPROMBlock (convertToEEPROMBlock ring4 ⟨3735928559, 48879, 0⟩)
        ⟨0, 0, 0⟩).secsSince1900 = 3735928559 ∧
     (convertFromEEPROMBlock (convertToEEPROMBlock ring4 ⟨3735928559, 48879, 0⟩)
        ⟨0, 0, 0⟩).downMins = 48879) :=
  ⟨⟨by decide, by decide⟩,
    C9_codec_roundtrip 3735928559 48879 0 (by decide) (by decide) ring4 ⟨0, 0, 0⟩⟩

/-- Counterexample to C7 as stated: on an all-UNUSED 4-slot ring with the
cursor at 0, getNextCompletedRecord fails with -1 because slot 1 is not
COMPLETE, and the cursor stays at its pre-call value 0 — it is NOT left
advanced at the next slot (byte index 8). -/
theorem C7_counterexample :
    slotFlag ring4.mem 1 ≠ MODEM_RECORD_COMPLETE ∧
    (getNextCompletedRecord ring4).1 = -1 ∧
    (getNextCompletedRecord ring4).2.modemRecordIndex = ring4.modemRecordIndex ∧
    (getNextCompletedRecord ring4).2.modemRecordIndex ≠ 8 := by decide

/-- C7 amended: when getNextCompletedRecord fails with -1 because the slot
one step forward (with wraparound) is not COMPLETE, the cursor
_modemRecordIndex is left UNCHANGED at its pre-call value — the one-step
advance happens only on success. -/
theorem C7_cursor_unchanged_on_failure (s : Store)
    (hnc : s.mem ((if s.len ≤ s.modemRecordIndex + 8 then 0 else s.modemRecordIndex + 8) + 7) ≠
      MODEM_RECORD_COMPLETE) :
    (getNextCompletedRecord s).1 = -1 ∧
    (getNextCompletedRecord s).2.modemRecordIndex = s.modemRecordIndex := by
  simp only [getNextCompletedRecord, getIndexOfNextCompletedRecord, nextIndexStep]
  rw [if_neg hnc]
  norm_num

/-- Witness for C7's amended theorem: the all-UNUSED 4-slot ring. -/
theorem C7_cursor_unchanged_on_failure_witness :
    (ring4.mem ((if ring4.len ≤ ring4.modemRecordIndex + 8 then 0
        else ring4.modemRecordIndex + 8) + 7) ≠ MODEM_RECORD_COMPLETE) ∧
    ((getNextCompletedRecord ring4).1 = -1 ∧
     (getNextCompletedRecord ring4).2.modemRecordIndex = ring4.modemRecordIndex) :=
  ⟨by decide, C7_cursor_unchanged_on_failure ring4 (by decide)⟩

/-! ### getNewestCompletedRecord on a ring without COMPLETE slots -/

/-- On a ring with no COMPLETE slot, `getNewestCompletedRecord` returns 0:
its first loop immediately parks `_modemRecordIndex` at slot 0 and the
failing `getIndexOfNextCompletedRecord` makes it return that cursor. -/
lemma getNewest_of_no_complete (s : Store) (N : Nat) (h : s.len = 8 * N) (hN : 0 < N)
    (hnc : ∀ j, j < N → slotFlag s.mem j ≠ MODEM_RECORD_COMPLETE) :
    (getNewestCompletedRecord s).1 = 0 := by
  have hnum : s.len / 8 = N := by rw [h]; exact Nat.mul_div_cancel_left N (by norm_num)
  have h0 : s.mem 7 ≠ MODEM_RECORD_COMPLETE := by
    have := hnc 0 hN
    simpa [slotFlag] using this
  have hr : nextIndexStep s.mem s.len 0 = (-1, 0) := by
    simp only [nextIndexStep]
    by_cases hl : s.len ≤ 0 + 8
    · rw [if_pos hl, if_neg (by simpa using h0)]
    · have h1 : s.mem (0 + 8 + 7) ≠ MODEM_RECORD_COMPLETE := by
        have := hnc 1 (by omega)
        simpa [slotFlag] using this
      rw [if_neg hl, if_neg h1]
  simp only [getNewestCompletedRecord, hnum]
  rw [gnwLoop1, if_pos h0, hr]
  norm_num

/-- Counterexample to C6 as stated: a 4-slot ring whose only IN_PROGRESS
slot is slot 1 (byte index 8) and which has no COMPLETE slot. -/
def cex6Store : Store :=
  { mem := fun a => if a = 15 then MODEM_RECORD_IN_PROGRESS else MODEM_RECORD_UNUSED,
    len := 32, modemRecordIndex := 0, EEPROMBlock := ⟨0, 0, 0, 0, 0, 0, 0, 0⟩ }

/-- Counterexample to C6 as stated: with exactly one IN_PROGRESS slot (slot
1) and no COMPLETE slot, getNewestCompletedRecord returns 0, NOT the byte
index 8 of the IN_PROGRESS slot. -/
theorem C6_counterexample :
    slotFlag cex6Store.mem 1 = MODEM_RECORD_IN_PROGRESS ∧
    (∀ j, j < 4 → slotFlag cex6Store.mem j = MODEM_RECORD_IN_PROGRESS → j = 1) ∧
    (∀ j, j < 4 → slotFlag cex6Store.mem j ≠ MODEM_RECORD_COMPLETE) ∧
    (getNewestCompletedRecord cex6Store).1 = 0 ∧
    (getNewestCompletedRecord cex6Store).1 ≠ 8 := by decide

/-- C6 amended: for every EEPROM state containing exactly one slot flagged
IN_PROGRESS and no slot flagged COMPLETE, getNewestCompletedRecord returns
0 — the byte index of slot 0, NOT (in general) the IN_PROGRESS slot — so it
coincides with the IN_PROGRESS slot's index only when that slot is slot 0. -/
theorem C6_newest_degenerate_returns_zero (s : Store) (N : Nat)
    (h : s.len = 8 * N) (hN : 0 < N) (p : Nat) (hp : p < N)
    (hIP : slotFlag s.mem p = MODEM_RECORD_IN_PROGRESS)
    (hnc : ∀ j, j < N → slotFlag s.mem j ≠ MODEM_RECORD_COMPLETE) :
    (getNewestCompletedRecord s).1 = 0 :=
  getNewest_of_no_complete s N h hN hnc

/-- Witness for C6's amended theorem. -/
theorem C6_newest_degenerate_returns_zero_witness :
    (slotFlag cex6Store.mem 1 = MODEM_RECORD_IN_PROGRESS ∧
     ∀ j, j < 4 → slotFlag cex6Store.mem j ≠ MODEM_RECORD_COMPLETE) ∧
    (getNewestCompletedRecord cex6Store).1 = 0 :=
  ⟨⟨by decide, by decide⟩,
    C6_newest_degenerate_returns_zero cex6Store 4 rfl (by decide) 1 (by decide)
      (by decide) (by decide)⟩

/-! ### Fail-closed behaviour and probe bounds of the scans (C4) -/

/-- First loop of `getOldestCompletedRecord` fails with -1 when no slot is
IN_PROGRESS, whatever garbage the uninitialised `count` holds. -/
lemma goldLoop1_none (mem : Bytes) (N : Nat) (count0 : Int)
    (hno : ∀ j, j < N → slotFlag mem j ≠ MODEM_RECORD_IN_PROGRESS) :
    ∀ fuel m idx, m < N →
      (goldLoop1 mem (8 * N) count0 N fuel (8 * m) (mem (8 * m + 7)) idx).1 = -1 := by
  intro fuel
  induction fuel with
  | zero =>
    intro m idx hm
    simp [goldLoop1]
  | succ f ih =>
    intro m idx hm
    have hflag : mem (8 * m + 7) ≠ MODEM_RECORD_IN_PROGRESS := hno m hm
    simp only [goldLoop1]
    by_cases hcnt : count0 ≤ (N : Int)
    · rw [if_pos ⟨hflag, hcnt⟩]
      by_cases hend : 8 * N ≤ 8 * m + 8 + 7
      · rw [if_pos hend]
      · rw [if_neg hend]
        have heq : 8 * m + 8 = 8 * (m + 1) := by ring
        rw [heq]
        exact ih (m + 1) (8 * m) (by omega)
    · rw [if_neg (fun hand => hcnt hand.2), if_pos (by omega)]

/-- `getOldestCompletedRecord` returns -1 when no slot is IN_PROGRESS, for
every value of the uninitialised `count`. -/
lemma getOldest_none (s : Store) (N : Nat) (h : s.len = 8 * N) (hN : 0 < N)
    (hno : ∀ j, j < N → slotFlag s.mem j ≠ MODEM_RECORD_IN_PROGRESS) (count0 : Int) :
    (getOldestCompletedRecord count0 s).1 = -1 := by
  have hnum : s.len / 8 = N := by rw [h]; exact Nat.mul_div_cancel_left N (by norm_num)
  simp only [getOldestCompletedRecord, hnum]
  rw [show goldLoop1 s.mem s.len count0 N (N + 1) 0 (s.mem 7) s.modemRecordIndex =
      goldLoop1 s.mem (8 * N) count0 N (N + 1) (8 * 0) (s.mem (8 * 0 + 7)) s.modemRecordIndex
      by rw [h]]
  exact goldLoop1_none s.mem N count0 hno (N + 1) 0 s.modemRecordIndex hN

/-- `getNextCompletedRecord` returns -1 when no slot is COMPLETE (cursor
slot-aligned and in bounds). -/
lemma getNext_none (s : Store) (N : Nat) (h : s.len = 8 * N) (hN : 0 < N)
    (ha : s.modemRecordIndex % 8 = 0) (hb : s.modemRecordIndex < s.len)
    (hnc : ∀ j, j < N → slotFlag s.mem j ≠ MODEM_RECORD_COMPLETE) :
    (getNextCompletedRecord s).1 = -1 := by
  have hnext : s.mem ((if s.len ≤ s.modemRecordIndex + 8 then 0
      else s.modemRecordIndex + 8) + 7) ≠ MODEM_RECORD_COMPLETE := by
    by_cases hl : s.len ≤ s.modemRecordIndex + 8
    · rw [if_pos hl]
      have := hnc 0 hN
      simpa [slotFlag] using this
    · rw [if_neg hl]
      obtain ⟨k, hkk⟩ : ∃ k, s.modemRecordIndex = 8 * k :=
        ⟨s.modemRecordIndex / 8, by omega⟩
      have heq : s.modemRecordIndex + 8 + 7 = 8 * (k + 1) + 7 := by omega
      rw [heq]
      exact hnc (k + 1) (by omega)
  simp only [getNextCompletedRecord, getIndexOfNextCompletedRecord, nextIndexStep]
  rw [if_neg hnext]
  norm_num

/-- Within `N+1` loop entries the `getRecordInProgress` scan has stabilised:
granting the loop any extra fuel beyond the code's `count <= numRecords`
bound cannot change the result. -/
lemma gripLoop_fuel_stable (mem : Bytes) (N : Nat) (hN : 0 < N) (idx extra : Nat) :
    (gripLoop mem (8 * N) (N + 1 + extra) 0 idx).1 =
    (gripLoop mem (8 * N) (N + 1) 0 idx).1 := by
  rw [show gripLoop mem (8 * N) (N + 1 + extra) 0 idx =
      gripLoop mem (8 * N) (N + 1 + extra) (8 * 0) idx from rfl,
    show gripLoop mem (8 * N) (N + 1) 0 idx =
      gripLoop mem (8 * N) (N + 1) (8 * 0) idx from rfl]
  by_cases hex : ∃ j, j < N ∧ slotFlag mem j = MODEM_RECORD_IN_PROGRESS
  · classical
    have hp := Nat.find_spec hex
    have h3 : ∀ k, k < Nat.find hex → slotFlag mem k ≠ MODEM_RECORD_IN_PROGRESS :=
      fun k hk hIP => Nat.find_min hex hk ⟨by omega, hIP⟩
    have hshift : ∀ k, k < N → (0 + k) % N = k := fun k hk => by
      rw [Nat.zero_add, Nat.mod_eq_of_lt hk]
    rw [gripLoop_finds mem N hN (Nat.find hex) (N + 1 + extra) 0 idx hN (by omega)
        (by rw [hshift _ hp.1]; exact hp.2)
        (fun k hk => by rw [hshift _ (by omega)]; exact h3 k hk),
      gripLoop_finds mem N hN (Nat.find hex) (N + 1) 0 idx hN (by omega)
        (by rw [hshift _ hp.1]; exact hp.2)
        (fun k hk => by rw [hshift _ (by omega)]; exact h3 k hk)]
  · push_neg at hex
    have hno : ∀ j, j < N → slotFlag mem j ≠ MODEM_RECORD_IN_PROGRESS := hex
    rw [gripLoop_none mem N hN hno (N + 1 + extra) 0 idx hN,
      gripLoop_none mem N hN hno (N + 1) 0 idx hN]

/-- C4 amended: every scan terminates within the code's own `N+1` probe
bound (granting the getRecordInProgress scan loop extra fuel beyond that
bound cannot change its result), and when the sought slot class does not
exist getRecordInProgress, getOldestCompletedRecord (for every value of its
uninitialised counter) and getNextCompletedRecord return -1 — while
getNewestCompletedRecord instead returns 0, slot 0's byte index, on a ring
with no COMPLETE slot. -/
theorem C4_scan_bounds_and_fail_closed (s : Store) (N : Nat)
    (h : s.len = 8 * N) (hN : 0 < N) :
    ((∀ j, j < N → slotFlag s.mem j ≠ MODEM_RECORD_IN_PROGRESS) →
      (getRecordInProgress s).1 = -1 ∧
      ∀ count0, (getOldestCompletedRecord count0 s).1 = -1) ∧
    (s.modemRecordIndex % 8 = 0 → s.modemRecordIndex < s.len →
      (∀ j, j < N → slotFlag s.mem j ≠ MODEM_RECORD_COMPLETE) →
      (getNextCompletedRecord s).1 = -1) ∧
    ((∀ j, j < N → slotFlag s.mem j ≠ MODEM_RECORD_COMPLETE) →
      (getNewestCompletedRecord s).1 = 0) ∧
    (∀ extra, (gripLoop s.mem s.len (N + 1 + extra) 0 s.modemRecordIndex).1 =
      (gripLoop s.mem s.len (N + 1) 0 s.modemRecordIndex).1) := by
  refine ⟨fun hno => ⟨?_, fun count0 => getOldest_none s N h hN hno count0⟩,
    fun ha hb hnc => getNext_none s N h hN ha hb hnc,
    fun hnc => getNewest_of_no_complete s N h hN hnc,
    fun extra => ?_⟩
  · rw [getRecordInProgress_none s N h hN hno]
  · rw [h]
    exact gripLoop_fuel_stable s.mem N hN s.modemRecordIndex extra

/-- Witness for C4's amended theorem: the all-UNUSED 4-slot ring. -/
theorem C4_scan_bounds_and_fail_closed_witness :
    ((getRecordInProgress ring4).1 = -1 ∧
     (getOldestCompletedRecord 0 ring4).1 = -1 ∧
     (getOldestCompletedRecord 5 ring4).1 = -1 ∧
     (getNextCompletedRecord ring4).1 = -1 ∧
     (getNewestCompletedRecord ring4).1 = 0) ∧
    (gripLoop ring4.mem ring4.len (4 + 1 + 3) 0 ring4.modemRecordIndex).1 =
      (gripLoop ring4.mem ring4.len (4 + 1) 0 ring4.modemRecordIndex).1 := by
  have hall := C4_scan_bounds_and_fail_closed ring4 4 rfl (by decide)
  exact ⟨⟨(hall.1 (by decide)).1, (hall.1 (by decide)).2 0, (hall.1 (by decide)).2 5,
    hall.2.1 (by decide) (by decide) (by decide), hall.2.2.1 (by decide)⟩,
    hall.2.2.2 3⟩

/-- Counterexample to C4 as stated: on the all-UNUSED (corrupt/empty) 4-slot
ring the sought slot class of getNewestCompletedRecord (a COMPLETE slot)
does not exist, yet the scan returns 0, not -1. -/
theorem C4_counterexample :
    (∀ j, j < 4 → slotFlag ring4.mem j ≠ MODEM_RECORD_COMPLETE) ∧
    (getNewestCompletedRecord ring4).1 = 0 ∧
    (getNewestCompletedRecord ring4).1 ≠ -1 := by decide

/-! ### The uninitialised `count` of getOldestCompletedRecord (C2) -/

/-- The state after one finalize-and-start call on the empty 4-slot ring:
slot 0 holds the record (ts=100, dm=0) sealed COMPLETE, slot 1 is the fresh
IN_PROGRESS record. -/
def c2AfterOne : Store := completeLogEntry (convertToEEPROMBlock ring4 ⟨100, 0, 0⟩)

/-- C2 evaluated at its failing input: after `k = 1` finalize-and-start call
from the empty ring, the completed record sits COMPLETE in slot 0, yet
`getOldestCompletedRecord` — whose local `count` is read uninitialised
(EEPROMRecordClass.cpp line 52 declares it, line 63 reads it) — returns -1
and visits nothing whenever the garbage value exceeds `numRecords` (here 5 >
4), while with garbage 0 it returns slot 0 as the claim demands.  The
result of the iteration protocol depends on an uninitialised read. -/
theorem C2_uninitialised_count_dependence :
    slotFlag c2AfterOne.mem 0 = MODEM_RECORD_COMPLETE ∧
    slotFlag c2AfterOne.mem 1 = MODEM_RECORD_IN_PROGRESS ∧
    (getOldestCompletedRecord 0 c2AfterOne).1 = 0 ∧
    (getOldestCompletedRecord 5 c2AfterOne).1 = -1 := by decide

/-! ### clearLog followed by getRecordInProgress (C8) -/

/-- Applying an appended write trace applies the two parts in order. -/
lemma writeList_append (mem : Bytes) (t1 t2 : List (Nat × Nat)) :
    writeList mem (t1 ++ t2) = writeList (writeList mem t1) t2 := by
  induction t1 generalizing mem with
  | nil => rfl
  | cons p t ih =>
    obtain ⟨a, v⟩ := p
    simp only [List.cons_append, writeList]
    exact ih _

/-- The bulk-erase loop of `clearLog` (lines 292-293) as a memory map. -/
lemma writeList_fill (v : Nat) (n : Nat) (mem : Bytes) (x : Nat) :
    writeList mem ((List.range n).map fun a => (a, v)) x = if x < n then v else mem x := by
  induction n generalizing mem with
  | zero => simp [writeList]
  | succ n ih =>
    rw [List.range_succ, List.map_append, writeList_append]
    simp only [List.map_cons, List.map_nil, writeList]
    rw [ih]
    by_cases hx : x = n
    · rw [if_pos hx, if_pos (by omega)]
    · rw [if_neg hx]
      by_cases h2 : x < n
      · rw [if_pos h2, if_pos (by omega)]
      · rw [if_neg h2, if_neg (by omega)]

/-- After `clearLog` with a slot-aligned cursor, the only IN_PROGRESS flags
byte is the cursor's slot; every other slot's flags byte is UNUSED. -/
lemma clearLog_slotFlag (s : Store) (N : Nat) (h : s.len = 8 * N)
    (ha : s.modemRecordIndex % 8 = 0) (k : Nat) (hk : k < N) :
    slotFlag (clearLog s).mem k =
      if 8 * k = s.modemRecordIndex then MODEM_RECORD_IN_PROGRESS
      else MODEM_RECORD_UNUSED := by
  simp only [clearLog, clearLogTrace, slotFlag, writeList_append]
  rw [writeList, writeList, writeList, writeList, writeList, writeList, writeList, writeList]
  by_cases hkc : 8 * k = s.modemRecordIndex
  · rw [if_pos (show 8 * k + 7 = s.modemRecordIndex + 7 by omega), if_pos hkc]
  · rw [if_neg (show ¬ 8 * k + 7 = s.modemRecordIndex + 7 by omega),
        if_neg (show ¬ 8 * k + 7 = s.modemRecordIndex + 5 by omega),
        if_neg (show ¬ 8 * k + 7 = s.modemRecordIndex + 4 by omega),
        if_neg (show ¬ 8 * k + 7 = s.modemRecordIndex + 3 by omega),
        if_neg (show ¬ 8 * k + 7 = s.modemRecordIndex + 2 by omega),
        if_neg (show ¬ 8 * k + 7 = s.modemRecordIndex + 1 by omega),
        if_neg (show ¬ 8 * k + 7 = s.modemRecordIndex by omega),
        if_neg hkc, writeList_fill, if_pos (by omega)]

/-- C8 amended: for every EEPROM state whose cursor is slot-aligned and in
bounds, clearLog (which writes UNUSED everywhere and then one IN_PROGRESS
record at the cursor's current index) followed by getRecordInProgress
succeeds and returns the slot index the cursor held before clearLog. -/
theorem C8_clear_then_find_in_progress (s : Store) (N : Nat)
    (h : s.len = 8 * N) (hN : 0 < N)
    (ha : s.modemRecordIndex % 8 = 0) (hb : s.modemRecordIndex < s.len) :
    (getRecordInProgress (clearLog s)).1 = (s.modemRecordIndex : Int) ∧
    (getRecordInProgress (clearLog s)).2.modemRecordIndex = s.modemRecordIndex := by
  have hcN : s.modemRecordIndex / 8 < N := by omega
  have hfind := getRecordInProgress_finds (clearLog s) N h hN (s.modemRecordIndex / 8) hcN
    (by rw [clearLog_slotFlag s N h ha _ hcN, if_pos (by omega)])
    (fun k hk => by
      rw [clearLog_slotFlag s N h ha k (by omega), if_neg (by omega)]
      decide)
  have hc8 : 8 * (s.modemRecordIndex / 8) = s.modemRecordIndex := by omega
  rw [hc8] at hfind
  rw [hfind]
  exact ⟨rfl, rfl⟩

/-- Witness for C8's amended theorem: a 32-byte ring with the cursor parked
on slot 1. -/
def wit8Store : Store :=
  { mem := fun _ => 0, len := 32, modemRecordIndex := 8,
    EEPROMBlock := ⟨1, 2, 3, 4, 5, 6, 7, 8⟩ }

/-- Witness for C8's amended theorem. -/
theorem C8_clear_then_find_in_progress_witness :
    (wit8Store.modemRecordIndex % 8 = 0 ∧ wit8Store.modemRecordIndex < wit8Store.len) ∧
    ((getRecordInProgress (clearLog wit8Store)).1 = (wit8Store.modemRecordIndex : Int) ∧
     (getRecordInProgress (clearLog wit8Store)).2.modemRecordIndex =
       wit8Store.modemRecordIndex) :=
  ⟨⟨by decide, by decide⟩,
    C8_clear_then_find_in_progress wit8Store 4 rfl (by decide) (by decide) (by decide)⟩

/-- Counterexample to C8 as stated ("for every cursor value"): with the
cursor at the misaligned byte index 1 of a 16-byte region, clearLog writes
its IN_PROGRESS flag at byte 8, which is not a slot flags byte, so the
subsequent getRecordInProgress fails with -1 instead of returning 1. -/
def cex8Store : Store :=
  { mem := fun _ => 0, len := 16, modemRecordIndex := 1,
    EEPROMBlock := ⟨0, 0, 0, 0, 0, 0, 0, 0⟩ }

/-- Counterexample to C8 as stated. -/
theorem C8_counterexample :
    cex8Store.modemRecordIndex = 1 ∧
    (getRecordInProgress (clearLog cex8Store)).1 = -1 ∧
    (getRecordInProgress (clearLog cex8Store)).1 ≠ (cex8Store.modemRecordIndex : Int) := by
  decide

/-! ### Flag-last write ordering (C3) -/

/-- If the only write in a trace that touches a slot flags byte with the
value COMPLETE or IN_PROGRESS is the trace's last element, the trace is
flag-last ordered. -/
lemma flagLast_of_only_last (t : List (Nat × Nat))
    (h : ∀ qi (hq : qi < t.length),
      (t.get ⟨qi, hq⟩).1 % 8 = 7 →
      ((t.get ⟨qi, hq⟩).2 = MODEM_RECORD_COMPLETE ∨
        (t.get ⟨qi, hq⟩).2 = MODEM_RECORD_IN_PROGRESS) →
      qi = t.length - 1) :
    flagLast t := by
  intro qi pi hq hp h7 hv h5 hsl
  have hql := h qi hq h7 hv
  by_cases hpq : pi = qi
  · subst hpq
    have heq : t.get ⟨pi, hp⟩ = t.get ⟨pi, hq⟩ := rfl
    rw [heq] at h5
    omega
  · omega

/-- A single-slot write burst — six payload bytes of an aligned slot
followed by its flags byte — is flag-last ordered whatever the values. -/
lemma flagLast_seven (a v0 v1 v2 v3 v4 v5 fv : Nat) (ht : a % 8 = 0) :
    flagLast [(a, v0), (a + 1, v1), (a + 2, v2), (a + 3, v3), (a + 4, v4), (a + 5, v5),
      (a + 7, fv)] := by
  intro qi pi hq hp h7 hv h5 hsl
  have hq7 : qi < 7 := by simpa using hq
  have hp7 : pi < 7 := by simpa using hp
  interval_cases qi <;> interval_cases pi <;> simp_all [List.get] <;> omega

/-- The `setEEPROMUptimeStats` scan only ever steps the index by whole
slots, so it stays slot-aligned. -/
lemma seusLoop_aligned (mem : Bytes) (len : Nat) :
    ∀ fuel mRI flags, mRI % 8 = 0 → (seusLoop mem len fuel mRI flags).1 % 8 = 0 := by
  intro fuel
  induction fuel with
  | zero =>
    intro mRI flags hm
    exact hm
  | succ f ih =>
    intro mRI flags hm
    simp only [seusLoop]
    split_ifs with hc hin
    · exact ih (mRI + 8) _ (by omega)
    · exact ih (mRI + 8) _ (by omega)
    · exact hm

/-- The slot `setEEPROMUptimeStats` writes to is slot-aligned. -/
lemma seusTarget_aligned (s : Store) : setEEPROMUptimeStatsTarget s % 8 = 0 := by
  simp only [setEEPROMUptimeStatsTarget]
  split_ifs with hf
  · exact Nat.zero_mod 8
  · exact seusLoop_aligned s.mem s.len (s.len / 8 + 1) 0 (s.mem 7) (Nat.zero_mod 8)

/-- The write trace of `setEEPROMUptimeStats` is flag-last ordered. -/
lemma flagLast_seus (s : Store) : flagLast (setEEPROMUptimeStatsTrace s) :=
  flagLast_seven (setEEPROMUptimeStatsTarget s) s.EEPROMBlock.secsSince1900_4
    s.EEPROMBlock.secsSince1900_3 s.EEPROMBlock.secsSince1900_2
    s.EEPROMBlock.secsSince1900_1 s.EEPROMBlock.downMins2 s.EEPROMBlock.downMins1
    MODEM_RECORD_IN_PROGRESS (seusTarget_aligned s)

/-- The write trace of `clearLog` is flag-last ordered (slot-aligned
cursor): the erase prefix only writes UNUSED, and the one COMPLETE-or-
IN_PROGRESS flags-byte write is the final element. -/
lemma flagLast_clearLog (s : Store) (ha : s.modemRecordIndex % 8 = 0) :
    flagLast (clearLogTrace s) := by
  apply flagLast_of_only_last
  intro qi hq h7 hv
  have hlen : (clearLogTrace s).length = s.len + 7 := by simp [clearLogTrace]
  have hq' : qi < s.len + 7 := by rw [← hlen]; exact hq
  rcases Nat.lt_or_ge qi s.len with hlt | hge
  · exfalso
    have hel : (clearLogTrace s).get ⟨qi, hq⟩ = (qi, MODEM_RECORD_UNUSED) := by
      simp [clearLogTrace, List.getElem_append_left, hlt]
    rw [hel] at hv
    have hv2 : MODEM_RECORD_UNUSED = MODEM_RECORD_COMPLETE ∨
        MODEM_RECORD_UNUSED = MODEM_RECORD_IN_PROGRESS := hv
    exact absurd hv2 (by decide)
  · obtain ⟨r, rfl⟩ : ∃ r, qi = s.len + r := ⟨qi - s.len, by omega⟩
    have hr : r < 7 := by omega
    rw [hlen]
    interval_cases r <;>
      simp [clearLogTrace, List.get, List.getElem_append_right] at h7 ⊢ <;>
      omega

/-- The value the source's dead `_modemRecordIndex < 0` test passes
through. -/
lemma natNotLtZero (n : Nat) : (if n < 0 then 0 else n) = n :=
  if_neg (Nat.not_lt_zero n)

/-- The second write target of `completeLogEntry`, as a wrap of the
first. -/
lemma clTargets_snd_formula (s : Store) :
    (clTargets s).2 =
      if s.len ≤ (clTargets s).1 + 8 then (clTargets s).1 + 8 - s.len
      else (clTargets s).1 + 8 := by
  simp only [clTargets, natNotLtZero]

/-- When the EEPROM holds at least two slots, `completeLogEntry` seals one
slot and starts the next IN_PROGRESS record in a DIFFERENT slot. -/
lemma completeLog_slots_differ (s : Store) (N : Nat) (h : s.len = 8 * N) (hN : 2 ≤ N) :
    (clTargets s).1 / 8 ≠ (clTargets s).2 / 8 := by
  obtain ⟨ha1, ha2, hb1, hb2⟩ := clTargets_cursor s N h (by omega)
  have hf := clTargets_snd_formula s
  by_cases hle : s.len ≤ (clTargets s).1 + 8
  · rw [if_pos hle] at hf
    omega
  · rw [if_neg hle] at hf
    omega

set_option maxHeartbeats 2000000 in
/-- The write trace of `completeLogEntry` is flag-last ordered: each of its
two slots receives its payload bytes strictly before its flags byte, and
the two slots differ when the ring has at least two slots. -/
lemma flagLast_completeLog (s : Store) (N : Nat) (h : s.len = 8 * N) (hN : 2 ≤ N) :
    flagLast (completeLogEntryTrace s) := by
  obtain ⟨ha1, ha2, hb1, hb2⟩ := clTargets_cursor s N h (by omega)
  have hdiff := completeLog_slots_differ s N h hN
  intro qi pi hq hp h7 hv h5 hsl
  have hq14 : qi < 14 := by simpa [completeLogEntryTrace] using hq
  have hp14 : pi < 14 := by simpa [completeLogEntryTrace] using hp
  interval_cases qi <;> interval_cases pi <;>
    simp_all [completeLogEntryTrace, List.get] <;> omega

/-- C3: in the write sequence issued by a single call to completeLogEntry,
setEEPROMUptimeStats, or clearLog, every write of a slot's flags byte (slot
offset 7, value COMPLETE or IN_PROGRESS) occurs after all of that call's
writes to the same slot's payload bytes (slot offsets 0-5).  Stated for an
EEPROM of at least two 8-byte slots and a slot-aligned cursor (the cursor
alignment only matters for clearLog, which writes at the raw cursor). -/
theorem C3_flag_byte_written_last (s : Store) (N : Nat) (h : s.len = 8 * N)
    (hN : 2 ≤ N) (ha : s.modemRecordIndex % 8 = 0) :
    flagLast (completeLogEntryTrace s) ∧
    flagLast (setEEPROMUptimeStatsTrace s) ∧
    flagLast (clearLogTrace s) :=
  ⟨flagLast_completeLog s N h hN, flagLast_seus s, flagLast_clearLog s ha⟩

/-- Witness for C3: concrete 4-slot store with cursor on slot 1. -/
theorem C3_flag_byte_written_last_witness :
    (wit8Store.len = 8 * 4 ∧ 2 ≤ 4 ∧ wit8Store.modemRecordIndex % 8 = 0) ∧
    (flagLast (completeLogEntryTrace wit8Store) ∧
     flagLast (setEEPROMUptimeStatsTrace wit8Store) ∧
     flagLast (clearLogTrace wit8Store)) :=
  ⟨⟨rfl, by decide, by decide⟩,
    C3_flag_byte_written_last wit8Store 4 rfl (by decide) (by decide)⟩

/-! ### Cursor alignment invariant (C10) -/

/-- One slot-step with wraparound keeps the cursor slot-aligned and in
bounds. -/
lemma nextIndexStep_cursor (mem : Bytes) (len idx N : Nat) (h : len = 8 * N) (hN : 0 < N)
    (ha : idx % 8 = 0) (hb : idx < len) :
    (nextIndexStep mem len idx).2 % 8 = 0 ∧ (nextIndexStep mem len idx).2 < len := by
  simp only [nextIndexStep]
  split_ifs <;> constructor <;> (try simp) <;> omega

/-- `getNextCompletedRecord` keeps the cursor slot-aligned and in bounds. -/
lemma getNext_cursor (s : Store) (N : Nat) (h : s.len = 8 * N) (hN : 0 < N)
    (ha : s.modemRecordIndex % 8 = 0) (hb : s.modemRecordIndex < s.len) :
    (getNextCompletedRecord s).2.modemRecordIndex % 8 = 0 ∧
    (getNextCompletedRecord s).2.modemRecordIndex < s.len := by
  simp only [getNextCompletedRecord, getIndexOfNextCompletedRecord, nextIndexStep]
  split_ifs <;> constructor <;> (try simp_all) <;> omega

/-- `getIndexOfPrevCompletedRecord` keeps the cursor slot-aligned and in
bounds. -/
lemma getIndexOfPrev_cursor (s : Store) (N : Nat) (h : s.len = 8 * N) (hN : 0 < N)
    (ha : s.modemRecordIndex % 8 = 0) (hb : s.modemRecordIndex < s.len) :
    (getIndexOfPrevCompletedRecord s).2.modemRecordIndex % 8 = 0 ∧
    (getIndexOfPrevCompletedRecord s).2.modemRecordIndex < s.len := by
  simp only [getIndexOfPrevCompletedRecord]
  split_ifs <;> constructor <;> (try simp) <;> omega

/-- The second loop of `getOldestCompletedRecord` keeps the cursor
slot-aligned and in bounds. -/
lemma goldLoop2_cursor (mem : Bytes) (len N : Nat) (h : len = 8 * N) (hN : 0 < N) :
    ∀ fuel i flags idx, i % 8 = 0 → i < len → idx % 8 = 0 → idx < len →
      (goldLoop2 mem len fuel i flags idx).2 % 8 = 0 ∧
      (goldLoop2 mem len fuel i flags idx).2 < len := by
  intro fuel
  induction fuel with
  | zero =>
    intro i flags idx hi1 hi2 hx1 hx2
    exact ⟨hx1, hx2⟩
  | succ f ih =>
    intro i flags idx hi1 hi2 hx1 hx2
    simp only [goldLoop2]
    by_cases hc : flags = MODEM_RECORD_COMPLETE
    · rw [if_pos hc]
      exact ⟨hi1, hi2⟩
    · rw [if_neg hc]
      by_cases hw : len ≤ i + 8
      · rw [if_pos hw]
        exact ih 0 _ idx (by omega) (by omega) hx1 hx2
      · rw [if_neg hw]
        exact ih (i + 8) _ idx (by omega) (by omega) hx1 hx2

/-- The first loop of `getOldestCompletedRecord` keeps the cursor
slot-aligned and in bounds. -/
lemma goldLoop1_cursor (mem : Bytes) (len N : Nat) (count0 : Int) (h : len = 8 * N)
    (hN : 0 < N) :
    ∀ fuel m flags idx, m < N → idx % 8 = 0 → idx < len →
      (goldLoop1 mem len count0 N fuel (8 * m) flags idx).2 % 8 = 0 ∧
      (goldLoop1 mem len count0 N fuel (8 * m) flags idx).2 < len := by
  intro fuel
  induction fuel with
  | zero =>
    intro m flags idx hm hx1 hx2
    exact ⟨hx1, hx2⟩
  | succ f ih =>
    intro m flags idx hm hx1 hx2
    simp only [goldLoop1]
    by_cases hg : flags ≠ MODEM_RECORD_IN_PROGRESS ∧ count0 ≤ (N : Int)
    · rw [if_pos hg]
      by_cases hend : len ≤ 8 * m + 8 + 7
      · rw [if_pos hend]
        exact ⟨Nat.mul_mod_right 8 m, show 8 * m < len by omega⟩
      · rw [if_neg hend]
        have heq : 8 * m + 8 = 8 * (m + 1) := by ring
        rw [heq]
        exact ih (m + 1) _ (8 * m) (by omega) (Nat.mul_mod_right 8 m) (by omega)
    · rw [if_neg hg]
      by_cases hcnt : (N : Int) < count0
      · rw [if_pos hcnt]
        exact ⟨hx1, hx2⟩
      · rw [if_neg hcnt]
        exact goldLoop2_cursor mem len N h hN N (8 * m) flags idx
          (Nat.mul_mod_right 8 m) (by omega) hx1 hx2

/-- `getOldestCompletedRecord` keeps the cursor slot-aligned and in bounds,
whatever its uninitialised counter holds. -/
lemma getOldest_cursor (s : Store) (N : Nat) (h : s.len = 8 * N) (hN : 0 < N)
    (count0 : Int) (ha : s.modemRecordIndex % 8 = 0) (hb : s.modemRecordIndex < s.len) :
    (getOldestCompletedRecord count0 s).2.modemRecordIndex % 8 = 0 ∧
    (getOldestCompletedRecord count0 s).2.modemRecordIndex < s.len := by
  have hnum : s.len / 8 = N := by rw [h]; exact Nat.mul_div_cancel_left N (by norm_num)
  simp only [getOldestCompletedRecord, hnum]
  exact goldLoop1_cursor s.mem s.len N count0 h hN (N + 1) 0 (s.mem 7)
    s.modemRecordIndex hN ha hb

/-- The second loop of `getNewestCompletedRecord` keeps the cursor
slot-aligned and in bounds. -/
lemma gnwLoop2_cursor (mem : Bytes) (len N : Nat) (h : len = 8 * N) (hN : 0 < N) :
    ∀ fuel i flags idx, i % 8 = 0 → i < len → idx % 8 = 0 → idx < len →
      (gnwLoop2 mem len fuel i flags idx).2 % 8 = 0 ∧
      (gnwLoop2 mem len fuel i flags idx).2 < len := by
  intro fuel
  induction fuel with
  | zero =>
    intro i flags idx hi1 hi2 hx1 hx2
    exact ⟨hx1, hx2⟩
  | succ f ih =>
    intro i flags idx hi1 hi2 hx1 hx2
    simp only [gnwLoop2]
    by_cases hc : flags = MODEM_RECORD_COMPLETE
    · rw [if_pos hc]
      obtain ⟨hr1, hr2⟩ := nextIndexStep_cursor mem len i N h hN hi1 hi2
      by_cases hneg : (nextIndexStep mem len i).1 < 0
      · rw [if_pos hneg]
        exact ⟨hi1, hi2⟩
      · rw [if_neg hneg]
        exact ih (nextIndexStep mem len i).2 _ (nextIndexStep mem len i).2 hr1 hr2 hr1 hr2
    · rw [if_neg hc]
      exact ⟨hx1, hx2⟩

/-- The first loop of `getNewestCompletedRecord` keeps the cursor
slot-aligned and in bounds. -/
lemma gnwLoop1_cursor (mem : Bytes) (len N numRecords : Nat) (h : len = 8 * N)
    (hN : 0 < N) :
    ∀ fuel i flags idx, i % 8 = 0 → i < len → idx % 8 = 0 → idx < len →
      (gnwLoop1 mem len numRecords fuel i flags idx).2 % 8 = 0 ∧
      (gnwLoop1 mem len numRecords fuel i flags idx).2 < len := by
  intro fuel
  induction fuel with
  | zero =>
    intro i flags idx hi1 hi2 hx1 hx2
    exact ⟨hx1, hx2⟩
  | succ f ih =>
    intro i flags idx hi1 hi2 hx1 hx2
    simp only [gnwLoop1]
    by_cases hc : flags ≠ MODEM_RECORD_COMPLETE
    · rw [if_pos hc]
      obtain ⟨hr1, hr2⟩ := nextIndexStep_cursor mem len i N h hN hi1 hi2
      by_cases hneg : (nextIndexStep mem len i).1 < 0
      · rw [if_pos hneg]
        exact ⟨hi1, hi2⟩
      · rw [if_neg hneg]
        exact ih (nextIndexStep mem len i).2 _ (nextIndexStep mem len i).2 hr1 hr2 hr1 hr2
    · rw [if_neg hc]
      exact gnwLoop2_cursor mem len N h hN (numRecords + 1) i flags idx hi1 hi2 hx1 hx2

/-- `getNewestCompletedRecord` keeps the cursor slot-aligned and in
bounds. -/
lemma getNewest_cursor (s : Store) (N : Nat) (h : s.len = 8 * N) (hN : 0 < N)
    (ha : s.modemRecordIndex % 8 = 0) (hb : s.modemRecordIndex < s.len) :
    (getNewestCompletedRecord s).2.modemRecordIndex % 8 = 0 ∧
    (getNewestCompletedRecord s).2.modemRecordIndex < s.len := by
  have hnum : s.len / 8 = N := by rw [h]; exact Nat.mul_div_cancel_left N (by norm_num)
  simp only [getNewestCompletedRecord, hnum]
  exact gnwLoop1_cursor s.mem s.len N N h hN (N + 1) 0 (s.mem 7) s.modemRecordIndex
    (Nat.zero_mod 8) (by omega) ha hb

/-- Invariant of the `setEEPROMUptimeStats` scan loop: the index stays
slot-aligned, and whenever the flags variable reads IN_PROGRESS the index
still points at a full slot inside the EEPROM. -/
lemma seusLoop_inv (mem : Bytes) (len : Nat) :
    ∀ fuel mRI flags, mRI % 8 = 0 →
      (flags = MODEM_RECORD_IN_PROGRESS → mRI + 7 < len) →
      (seusLoop mem len fuel mRI flags).1 % 8 = 0 ∧
      ((seusLoop mem len fuel mRI flags).2 = MODEM_RECORD_IN_PROGRESS →
        (seusLoop mem len fuel mRI flags).1 + 7 < len) := by
  intro fuel
  induction fuel with
  | zero =>
    intro mRI flags hm hf
    exact ⟨hm, hf⟩
  | succ f ih =>
    intro mRI flags hm hf
    simp only [seusLoop]
    by_cases hc : flags ≠ MODEM_RECORD_IN_PROGRESS ∧ mRI + 7 < len
    · rw [if_pos hc]
      by_cases hin : mRI + 8 + 7 < len
      · rw [if_pos hin]
        exact ih (mRI + 8) _ (by omega) (fun _ => hin)
      · rw [if_neg hin]
        exact ih (mRI + 8) _ (by omega) (fun hIP => absurd hIP hc.1)
    · rw [if_neg hc]
      exact ⟨hm, hf⟩

/-- The slot `setEEPROMUptimeStats` writes to is slot-aligned and in
bounds. -/
lemma seusTarget_cursor (s : Store) (N : Nat) (h : s.len = 8 * N) (hN : 0 < N) :
    setEEPROMUptimeStatsTarget s % 8 = 0 ∧ setEEPROMUptimeStatsTarget s < s.len := by
  have hinv := seusLoop_inv s.mem s.len (s.len / 8 + 1) 0 (s.mem 7)
    (Nat.zero_mod 8) (fun _ => by omega)
  simp only [setEEPROMUptimeStatsTarget]
  split_ifs with hf
  · exact ⟨Nat.zero_mod 8, by omega⟩
  · exact ⟨hinv.1, by have := hinv.2 (not_not.mp hf); omega⟩

/-- C10: provided EEPROM.length() is a positive multiple of 8 and the
cursor _modemRecordIndex starts slot-aligned in [0, EEPROM.length()), every
public store operation — the scans getRecordInProgress,
getOldestCompletedRecord (whatever its uninitialised counter holds),
getNextCompletedRecord, getNewestCompletedRecord, the single-step
getIndexOfNextCompletedRecord / getIndexOfPrevCompletedRecord, and the
writers completeLogEntry, setEEPROMUptimeStats, clearLog — leaves the
cursor a multiple of 8 within [0, EEPROM.length()). -/
theorem C10_cursor_stays_slot_aligned (s : Store) (N : Nat) (h : s.len = 8 * N)
    (hN : 0 < N) (hc : cursorOK s) :
    cursorOK (getRecordInProgress s).2 ∧
    (∀ count0, cursorOK (getOldestCompletedRecord count0 s).2) ∧
    cursorOK (getNextCompletedRecord s).2 ∧
    cursorOK (getNewestCompletedRecord s).2 ∧
    cursorOK (getIndexOfNextCompletedRecord s).2 ∧
    cursorOK (getIndexOfPrevCompletedRecord s).2 ∧
    cursorOK (completeLogEntry s) ∧
    cursorOK (setEEPROMUptimeStats s) ∧
    cursorOK (clearLog s) := by
  obtain ⟨ha, hb⟩ := hc
  obtain ⟨hc1, hc2, hc3, hc4⟩ := clTargets_cursor s N h hN
  have hnextlen : (getNextCompletedRecord s).2.len = s.len := by
    simp only [getNextCompletedRecord, getIndexOfNextCompletedRecord]
    split_ifs <;> rfl
  have hprevlen : (getIndexOfPrevCompletedRecord s).2.len = s.len := by
    simp only [getIndexOfPrevCompletedRecord]
    split_ifs <;> rfl
  refine ⟨getRecordInProgress_cursor s N h hN,
    fun count0 => getOldest_cursor s N h hN count0 ha hb,
    ⟨(getNext_cursor s N h hN ha hb).1,
      by rw [hnextlen]; exact (getNext_cursor s N h hN ha hb).2⟩,
    getNewest_cursor s N h hN ha hb,
    nextIndexStep_cursor s.mem s.len s.modemRecordIndex N h hN ha hb,
    ⟨(getIndexOfPrev_cursor s N h hN ha hb).1,
      by rw [hprevlen]; exact (getIndexOfPrev_cursor s N h hN ha hb).2⟩,
    ⟨hc3, hc4⟩,
    seusTarget_cursor s N h hN,
    ⟨ha, hb⟩⟩

/-- Witness for C10: concrete 4-slot store with cursor on slot 1. -/
theorem C10_cursor_stays_slot_aligned_witness :
    (wit8Store.len = 8 * 4 ∧ 0 < 4 ∧ cursorOK wit8Store) ∧
    (cursorOK (getRecordInProgress wit8Store).2 ∧
     (∀ count0, cursorOK (getOldestCompletedRecord count0 wit8Store).2) ∧
     cursorOK (getNextCompletedRecord wit8Store).2 ∧
     cursorOK (getNewestCompletedRecord wit8Store).2 ∧
     cursorOK (getIndexOfNextCompletedRecord wit8Store).2 ∧
     cursorOK (getIndexOfPrevCompletedRecord wit8Store).2 ∧
     cursorOK (completeLogEntry wit8Store) ∧
     cursorOK (setEEPROMUptimeStats wit8Store) ∧
     cursorOK (clearLog wit8Store)) :=
  ⟨⟨rfl, by decide, by decide, by decide⟩,
    C10_cursor_stays_slot_aligned wit8Store 4 rfl (by decide) ⟨by decide, by decide⟩⟩

end ModemMonitor
